import Mathlib

/-!
Shallow embedding of the core of the `stocker` terminal stock dashboard:
the reactive stream combinators (`src/reactive/stream_ext.rs`), the
event-to-state-machine layer (`src/event.rs`), the select-menu widget state
(`src/widgets/select_menu.rs`) and the date-range stream (`src/app.rs`).

Streams are modelled as lists of items; a stateful combinator becomes a step
function on its explicit accumulator state, folded over the input list.
Rust `usize` values become `Nat` (with checked subtraction modelling the
debug-mode underflow panic), `String` values that are edited character by
character become `List Char`, and fallible/panicking code returns `Option`
(`none` models a panic such as `unwrap`, `unreachable!` or `unimplemented!`).
-/

/-- Key codes from `crossterm::event::KeyCode`, restricted to the
constructors the program matches on; `KeyEvent` modifiers are never read
by the code, so a key event is modelled by its code alone. -/
inductive KeyCode where
  | backspace
  | enter
  | left
  | right
  | up
  | down
  | home
  | endKey
  | delete
  | esc
  | char (c : Char)
deriving DecidableEq, Repr

/-- Input events (`InputEvent` in `src/event.rs`): key press, mouse event or
timer tick.  The only mouse event the code ever destructures is
`MouseEvent::Up(MouseButton::Left, x, y, _)`; every other mouse event falls
into catch-all arms, modelled by `mouseOther`. -/
inductive InputEvent where
  | key (code : KeyCode)
  | mouseUpLeft (x y : Nat)
  | mouseOther
  | tick
deriving DecidableEq, Repr

/-- `UiTarget` from `src/app.rs`: the closed set of named screen regions. -/
inductive UiTarget where
  | indicatorBox
  | indicatorList
  | stockName
  | stockSymbol
  | stockSymbolInput
  | timeFrameBox
  | timeFrameList
deriving DecidableEq, Fintype, Repr

/-- `OverlayState` from `src/event.rs`; the `Default` derivation picks
`Inactive`. -/
inductive OverlayState where
  | active
  | inactive
deriving DecidableEq, Repr

/-- `tui::layout::Rect`; coordinates are `u16` in the source, modelled by
`Nat` (the program never approaches the `u16` range). -/
structure Rect where
  x : Nat
  y : Nat
  width : Nat
  height : Nat
deriving DecidableEq, Repr

def Rect.left (r : Rect) : Nat := r.x

def Rect.right (r : Rect) : Nat := r.x + r.width

def Rect.top (r : Rect) : Nat := r.y

def Rect.bottom (r : Rect) : Nat := r.y + r.height

/-- The hit test used throughout `src/event.rs`:
`area.left() <= x && area.right() > x && area.top() <= y && area.bottom() > y`. -/
def Rect.containsPoint (r : Rect) (x y : Nat) : Bool :=
  r.left ≤ x && x < r.right && r.top ≤ y && y < r.bottom

/-- `tui::layout::Rect::inner` with a symmetric margin: returns the zero
rectangle when the margin does not fit. -/
def Rect.inner (r : Rect) (horizontal vertical : Nat) : Rect :=
  if r.width < 2 * horizontal || r.height < 2 * vertical then
    ⟨0, 0, 0, 0⟩
  else
    ⟨r.x + horizontal, r.y + vertical, r.width - 2 * horizontal, r.height - 2 * vertical⟩

/-! ## `distinct_until_changed` (`src/reactive/stream_ext.rs`, lines 216-238)

The combinator keeps the last *emitted* item in `buf`; an incoming item is
dropped when it equals the buffered one, otherwise it replaces the buffer and
is emitted. -/

/-- One step of `DistinctUntilChanged`: given the buffered last-emitted item
and the incoming item, return the new buffer and the emitted items. -/
def distinctStep {α : Type} [DecidableEq α] (buf : Option α) (x : α) :
    Option α × List α :=
  if buf = some x then
    (buf, [])
  else
    (some x, [x])

/-- Run `DistinctUntilChanged` from a given buffer over a list of items,
collecting the emitted items. -/
def distinctRunFrom {α : Type} [DecidableEq α] (buf : Option α) :
    List α → List α
  | [] => []
  | x :: xs =>
    (distinctStep buf x).2 ++ distinctRunFrom (distinctStep buf x).1 xs

/-- The output sequence of `distinct_until_changed` on an input sequence
(the buffer starts out empty). -/
def distinctRun {α : Type} [DecidableEq α] (xs : List α) : List α :=
  distinctRunFrom none xs

/-- The buffer contents after feeding a list of items. -/
def distinctBufAfterFrom {α : Type} [DecidableEq α] (buf : Option α) :
    List α → Option α
  | [] => buf
  | x :: xs => distinctBufAfterFrom (distinctStep buf x).1 xs

/-- The buffer contents after feeding a list of items from the empty buffer. -/
def distinctBufAfter {α : Type} [DecidableEq α] (xs : List α) : Option α :=
  distinctBufAfterFrom none xs

/-! ## `combine_latest` (`src/reactive/stream_ext.rs`, lines 143-209)

Both upstream subscriptions write their item into `buf_a`/`buf_b`; an output
pair is produced exactly when the *other* buffer already holds a value.  The
two upstreams are modelled as one interleaved list of tagged items. -/

/-- An item arriving on one of the two inputs of `combine_latest`. -/
inductive SrcEvent (α β : Type) where
  | left (a : α)
  | right (b : β)
deriving DecidableEq, Repr

/-- One step of `CombineLatest`: update the buffer for the arriving side and
emit the latest pair when the other side has already produced a value. -/
def combineLatestStep {α β : Type} (s : Option α × Option β) :
    SrcEvent α β → (Option α × Option β) × List (α × β)
  | .left a =>
    ((some a, s.2), match s.2 with | some b => [(a, b)] | none => [])
  | .right b =>
    ((s.1, some b), match s.1 with | some a => [(a, b)] | none => [])

/-- Run `combine_latest` from a given buffer state, collecting outputs. -/
def combineLatestRunFrom {α β : Type} (s : Option α × Option β) :
    List (SrcEvent α β) → List (α × β)
  | [] => []
  | e :: es =>
    (combineLatestStep s e).2 ++ combineLatestRunFrom (combineLatestStep s e).1 es

/-- The output sequence of `combine_latest` on an interleaved input sequence
(both buffers start out empty). -/
def combineLatestRun {α β : Type} (es : List (SrcEvent α β)) : List (α × β) :=
  combineLatestRunFrom (none, none) es

/-- The buffer pair after feeding an interleaved input sequence. -/
def combineLatestBufAfterFrom {α β : Type} (s : Option α × Option β) :
    List (SrcEvent α β) → Option α × Option β
  | [] => s
  | e :: es => combineLatestBufAfterFrom (combineLatestStep s e).1 es

/-- The buffer pair after feeding an interleaved input sequence from the
initial empty buffers. -/
def combineLatestBufAfter {α β : Type} (es : List (SrcEvent α β)) :
    Option α × Option β :=
  combineLatestBufAfterFrom (none, none) es

/-- Track the most recent left value. -/
def latestLeftStep {α β : Type} (acc : Option α) : SrcEvent α β → Option α
  | .left a => some a
  | .right _ => acc

/-- Track the most recent right value. -/
def latestRightStep {α β : Type} (acc : Option β) : SrcEvent α β → Option β
  | .right b => some b
  | .left _ => acc

/-- The latest value produced on the left input, if any. -/
def latestLeft {α β : Type} (es : List (SrcEvent α β)) : Option α :=
  es.foldl latestLeftStep none

/-- The latest value produced on the right input, if any. -/
def latestRight {α β : Type} (es : List (SrcEvent α β)) : Option β :=
  es.foldl latestRightStep none

/-! ## Overlay events and the overlay arbitration fold
(`src/event.rs`, `queue_overlay_states_for_next_tick`, lines 791-877)

The `im::HashMap<UiTarget, OverlayState>` accumulator is modelled as a
function `UiTarget → Option OverlayState` (present keys map to `some`).
`im`'s `+` is a left-biased union and `difference_with` is the symmetric
difference with a merge function for keys present on both sides. -/

/-- `TextFieldEvent` from `src/event.rs`.  String payloads are `List Char`
because the reducer edits them character by character. -/
inductive TextFieldEvent where
  | accept (value : List Char)
  | activate
  | backspacePastStart
  | deactivate
  | deletePastEnd
  | input (value : List Char)
  | moveCursor (offset : Nat)
  | moveCursorPastEnd
  | moveCursorPastStart
  | toggle
deriving DecidableEq, Repr

/-- `SelectMenuEvent` from `src/event.rs` (`Accept` carries the
`to_string`-ed selection, if any). -/
inductive SelectMenuEvent where
  | accept (selection : Option (List Char))
  | activate
  | deactivate
  | selectIndex (index : Nat)
  | toggle
deriving DecidableEq, Repr

/-- `OverlayEvent` from `src/event.rs`. -/
inductive OverlayEvent where
  | selectMenu (ev : SelectMenuEvent)
  | textField (ev : TextFieldEvent)
deriving DecidableEq, Repr

/-- The overlay-state map held by the arbitration fold:
`im::HashMap<UiTarget, OverlayState>` as a partial function. -/
def OverlayMap : Type := UiTarget → Option OverlayState

/-- Left-biased union, the semantics of `im::HashMap` addition (`m1 + m2`
keeps `m1`'s value on key collisions). -/
def OverlayMap.union (m1 m2 : OverlayMap) : OverlayMap :=
  fun k => match m1 k with
    | some v => some v
    | none => m2 k

/-- `im::HashMap::difference_with m1 m2 f`: symmetric difference, keeping
unmatched entries of either map and merging doubly-present keys with `f`
(`none` drops the key). -/
def OverlayMap.differenceWith (m1 m2 : OverlayMap)
    (f : OverlayState → OverlayState → Option OverlayState) : OverlayMap :=
  fun k => match m1 k, m2 k with
    | some a, some b => f a b
    | some a, none => some a
    | none, some b => some b
    | none, none => none

/-- The inner `match ev` of `queue_overlay_states_for_next_tick`: the overlay
state an event drives its target to, given the target's accumulated state. -/
def overlayEventState (accOverlayState : OverlayState) : OverlayEvent → OverlayState
  | .textField ev =>
    match ev with
    | .activate => .active
    | .accept _ => .inactive
    | .deactivate => .inactive
    | .toggle =>
      match accOverlayState with
      | .active => .inactive
      | .inactive => .active
    | _ => accOverlayState
  | .selectMenu ev =>
    match ev with
    | .activate => .active
    | .accept _ => .inactive
    | .deactivate => .inactive
    | .toggle =>
      match accOverlayState with
      | .active => .inactive
      | .inactive => .active
    | _ => accOverlayState

/-- One step of the arbitration fold: compute the target's next overlay
state, build the new overlay-state map (deactivating every other active
target when this one activates), and the changeset against the previous
map.  The changeset is the batch pushed onto the next-tick queue. -/
def queueOverlayStep (acc : OverlayMap × OverlayMap)
    (input : UiTarget × OverlayEvent) : OverlayMap × OverlayMap :=
  let accOverlayStateMap := acc.2
  let uiTarget := input.1
  let accOverlayState := (accOverlayStateMap uiTarget).getD .inactive
  let overlayState := overlayEventState accOverlayState input.2
  let overlayStateMap :=
    OverlayMap.union (fun k => if k = uiTarget then some overlayState else none)
      (match overlayState with
        | .active =>
          OverlayMap.union
            (fun k => match accOverlayStateMap k with
              | some .active => some .inactive
              | _ => none)
            accOverlayStateMap
        | .inactive => accOverlayStateMap)
  let overlayStateChangeset :=
    OverlayMap.differenceWith accOverlayStateMap overlayStateMap
      (fun accSt st => if accSt ≠ st then some st else none)
  (overlayStateChangeset, overlayStateMap)

/-- The arbitration fold over a whole overlay-event sequence, starting from
the two empty maps. -/
def queueOverlayRun (evs : List (UiTarget × OverlayEvent)) :
    OverlayMap × OverlayMap :=
  evs.foldl queueOverlayStep (fun _ => none, fun _ => none)

/-- At most one target is mapped to `Active`. -/
def atMostOneActive (m : OverlayMap) : Prop :=
  ∀ t1 t2 : UiTarget, m t1 = some .active → m t2 = some .active → t1 = t2

/-! ## Event routing (`src/event.rs`, `to_grouped_user_input_events`,
lines 66-132)

Only the `group_by` key function decides which overlay an event is grouped
under; it is what the claims are about.  The hotkey `BiMap` and the
associated-overlay `HashMap` are modelled as partial functions, and the
buffered `(UiTarget, Rect)` hit-test list is passed explicitly. -/

/-- The `group_by` key function of `to_grouped_user_input_events`: a key
event goes to the active overlay, or else through the hotkey table; a left
mouse click goes to the associated overlay of the hit target, or to the
active overlay when nothing is hit; everything else gets key `none`. -/
def groupedUserInputKey (hotkeyOverlayMap : KeyCode → Option UiTarget)
    (associatedOverlayMap : UiTarget → Option UiTarget)
    (input : InputEvent × List (UiTarget × Rect) × Option UiTarget) :
    Option UiTarget :=
  match input.1 with
  | .key code =>
    match input.2.2 with
    | some uiTarget => some uiTarget
    | none => hotkeyOverlayMap code
  | .mouseUpLeft x y =>
    match input.2.1.find? (fun pair => pair.2.containsPoint x y) with
    | some (clicked, _) => associatedOverlayMap clicked
    | none => input.2.2
  | _ => none

/-- The hotkey table built in `src/main.rs`. -/
def mainHotkeyOverlayMap : KeyCode → Option UiTarget
  | .char 'i' => some .indicatorList
  | .char 's' => some .stockSymbolInput
  | .char 't' => some .timeFrameList
  | _ => none

/-- The associated-overlay table built in `src/main.rs`. -/
def mainAssociatedOverlayMap : UiTarget → Option UiTarget
  | .indicatorBox => some .indicatorList
  | .indicatorList => some .indicatorList
  | .stockName => some .stockSymbolInput
  | .stockSymbol => some .stockSymbolInput
  | .stockSymbolInput => some .stockSymbolInput
  | .timeFrameBox => some .timeFrameList
  | .timeFrameList => some .timeFrameList

/-! ## Text-field reducer (`src/event.rs`, `to_text_field_events`,
lines 152-519)

The fold accumulator is
`(Option<TextFieldEvent>, TextFieldState, TextFieldState, OverlayState)`;
the second `TextFieldState` is the *saved* state.  Each fold input is
`(InputEvent, OverlayState, Vec<(UiTarget, Rect)>)` as produced by
`combine_latest`/`with_latest_from` upstream.  The `match` arms with guards
are translated to an if-chain in source order.  `unreachable!()` and
`unimplemented!()` become `none`. -/

/-- `TextFieldState` as used by `to_text_field_events`
(`active`, `value`, `cursor_offset`); the value is a `List Char` since the
reducer works on `value.chars()` and `cursor_offset` counts chars. -/
structure TextFieldState where
  active : Bool
  value : List Char
  cursorOffset : Nat
deriving DecidableEq, Repr

/-- Rust `char::is_whitespace`: the Unicode `White_Space` property. -/
def isRustWhitespace (c : Char) : Bool :=
  c.toNat = 0x09 || c.toNat = 0x0A || c.toNat = 0x0B || c.toNat = 0x0C ||
  c.toNat = 0x0D || c.toNat = 0x20 || c.toNat = 0x85 || c.toNat = 0xA0 ||
  c.toNat = 0x1680 || (0x2000 ≤ c.toNat && c.toNat ≤ 0x200A) ||
  c.toNat = 0x2028 || c.toNat = 0x2029 || c.toNat = 0x202F ||
  c.toNat = 0x205F || c.toNat = 0x3000

/-- Rust `str::trim`: strip leading and trailing whitespace. -/
def rustTrim (s : List Char) : List Char :=
  ((s.dropWhile isRustWhitespace).reverse.dropWhile isRustWhitespace).reverse

/-- The accumulator of the `to_text_field_events` fold. -/
structure TextFieldAcc where
  ev : Option TextFieldEvent
  state : TextFieldState
  saved : TextFieldState
  overlay : OverlayState
deriving DecidableEq, Repr

/-- The key-event `match` of the `to_text_field_events` fold (the arms of
`match code` with their guards, in source order, as an if-chain).  Every arm
produces a value, so this branch is total. -/
def textFieldKeyStep (mapValueFunc : List Char → List Char)
    (activationHotkey : KeyCode) (acc : TextFieldAcc)
    (overlayState : OverlayState) (code : KeyCode) : TextFieldAcc :=
  if code = .enter ∧ acc.state.active = true ∧ acc.state.value ≠ [] then
    ⟨some (.accept (rustTrim acc.state.value)), acc.saved, acc.saved,
      overlayState⟩
  else if code = .esc ∧ acc.state.active = true then
    ⟨some .deactivate, acc.saved, acc.saved, overlayState⟩
  else if code = .backspace ∧ acc.state.active = true ∧
      acc.state.cursorOffset = 0 then
    ⟨some .backspacePastStart, acc.state, acc.saved, overlayState⟩
  else if code = .backspace ∧ acc.state.active = true then
    let cursorOffset := acc.state.cursorOffset
    let value :=
      if cursorOffset = acc.state.value.length then
        acc.state.value.dropLast
      else
        acc.state.value.take (cursorOffset - 1) ++
          acc.state.value.drop cursorOffset
    let value := mapValueFunc value
    ⟨some (.input value),
      { acc.state with cursorOffset := cursorOffset - 1, value := value },
      acc.saved, overlayState⟩
  else if code = .delete ∧ acc.state.active = true ∧
      acc.state.cursorOffset = acc.state.value.length then
    ⟨some .deletePastEnd, acc.state, acc.saved, overlayState⟩
  else if code = .delete ∧ acc.state.active = true then
    let cursorOffset := acc.state.cursorOffset
    let value :=
      acc.state.value.take cursorOffset ++
        acc.state.value.drop (cursorOffset + 1)
    let value := mapValueFunc value
    ⟨some (.input value), { acc.state with value := value }, acc.saved,
      overlayState⟩
  else if code = .left ∧ acc.state.active = true ∧
      acc.state.cursorOffset = 0 then
    ⟨some .moveCursorPastStart, acc.state, acc.saved, overlayState⟩
  else if code = .left ∧ acc.state.active = true then
    ⟨some (.moveCursor (acc.state.cursorOffset - 1)),
      { acc.state with cursorOffset := acc.state.cursorOffset - 1 },
      acc.saved, overlayState⟩
  else if code = .right ∧ acc.state.active = true ∧
      acc.state.cursorOffset = acc.state.value.length then
    ⟨some .moveCursorPastEnd, acc.state, acc.saved, overlayState⟩
  else if code = .right ∧ acc.state.active = true then
    ⟨some (.moveCursor (acc.state.cursorOffset + 1)),
      { acc.state with cursorOffset := acc.state.cursorOffset + 1 },
      acc.saved, overlayState⟩
  else if code = .home ∧ acc.state.active = true then
    ⟨some (.moveCursor 0), { acc.state with cursorOffset := 0 }, acc.saved,
      overlayState⟩
  else if code = .endKey ∧ acc.state.active = true then
    ⟨some (.moveCursor acc.state.value.length),
      { acc.state with cursorOffset := acc.state.value.length }, acc.saved,
      overlayState⟩
  else if code = activationHotkey ∧ acc.state.active = false then
    ⟨some .activate, { acc.state with active := true }, acc.saved,
      overlayState⟩
  else
    match code with
    | .char c =>
      if acc.state.active = true then
        let cursorOffset := acc.state.cursorOffset
        let value :=
          if cursorOffset = acc.state.value.length then
            acc.state.value ++ [c]
          else
            acc.state.value.take cursorOffset ++ c ::
              acc.state.value.drop cursorOffset
        let value := mapValueFunc value
        ⟨some (.input value),
          { acc.state with cursorOffset := cursorOffset + 1, value := value },
          acc.saved, overlayState⟩
      else
        ⟨none, acc.state, acc.saved, overlayState⟩
    | _ => ⟨none, acc.state, acc.saved, overlayState⟩

/-- The left-mouse-click branch of the `to_text_field_events` fold:
hit-test, the self-target guard, then the `text_field_event_map` lookup.
`eventMap` is the map with the `Some(self_ui_target)` key already removed;
`none` models the `unimplemented!()` on an unhandled mapped event. -/
def textFieldMouseStep (selfUiTarget : UiTarget)
    (eventMap : Option UiTarget → Option TextFieldEvent) (acc : TextFieldAcc)
    (overlayState : OverlayState) (uiTargetAreas : List (UiTarget × Rect))
    (x y : Nat) : Option TextFieldAcc :=
  let noop : TextFieldAcc := ⟨none, acc.state, acc.saved, overlayState⟩
  let hit := uiTargetAreas.find? (fun pair => pair.2.containsPoint x y)
  if hit.map Prod.fst = some selfUiTarget ∧ acc.state.active = true then
    some noop
  else
    match eventMap (hit.map Prod.fst) with
    | some .activate =>
      if acc.state.active then
        some noop
      else
        some ⟨some .activate, { acc.state with active := true }, acc.saved,
          overlayState⟩
    | some .deactivate =>
      if acc.state.active then
        some ⟨some .deactivate, acc.saved, acc.saved, overlayState⟩
      else
        some noop
    | some .toggle =>
      if acc.state.active then
        some ⟨some .deactivate, acc.saved, acc.saved, overlayState⟩
      else
        some ⟨some .activate, { acc.state with active := true }, acc.saved,
          overlayState⟩
    | some _ => none
    | none => some noop

/-- One step of the `to_text_field_events` fold.  `mapValueFunc` is the
caller-supplied normalizer applied to the whole value after every edit
(`|v| v.to_ascii_uppercase()` in `src/main.rs`); `textFieldEventMap` is the
`text_field_event_map` parameter (the code first removes the key
`Some(self_ui_target)` from it).  `none` models a panic
(`unreachable!` in the overlay-transition match, `unimplemented!` for an
unhandled mapped mouse event). -/
def textFieldStep (mapValueFunc : List Char → List Char)
    (activationHotkey : KeyCode) (selfUiTarget : UiTarget)
    (textFieldEventMap : Option UiTarget → Option TextFieldEvent)
    (acc : TextFieldAcc)
    (input : InputEvent × OverlayState × List (UiTarget × Rect)) :
    Option TextFieldAcc :=
  let eventMap : Option UiTarget → Option TextFieldEvent :=
    fun k => if k = some selfUiTarget then none else textFieldEventMap k
  let overlayState := input.2.1
  let uiTargetAreas := input.2.2
  let noop : TextFieldAcc := ⟨none, acc.state, acc.saved, overlayState⟩
  if acc.overlay ≠ overlayState then
    let overlayStateChanged :=
      match overlayState with
      | .active => !acc.state.active
      | .inactive => acc.state.active
    if !overlayStateChanged then
      some noop
    else
      match acc.overlay, overlayState with
      | .inactive, .active =>
        some ⟨some .activate, { acc.state with active := true }, acc.saved,
          overlayState⟩
      | .active, .inactive =>
        some ⟨some .deactivate, acc.saved, acc.saved, overlayState⟩
      | _, _ => none
  else
    match input.1 with
    | .key code =>
      some (textFieldKeyStep mapValueFunc activationHotkey acc overlayState
        code)
    | .mouseUpLeft x y =>
      textFieldMouseStep selfUiTarget eventMap acc overlayState uiTargetAreas
        x y
    | _ => some noop

/-- The cursor invariant of `TextFieldState` stated by the spec:
`0 ≤ cursor_offset ≤ len(value)` (the lower bound is inherent to `Nat`). -/
def cursorInvariant (s : TextFieldState) : Prop :=
  s.cursorOffset ≤ s.value.length

instance (s : TextFieldState) : Decidable (cursorInvariant s) :=
  Nat.decLe s.cursorOffset s.value.length

/-! ## Select-menu state (`src/widgets/select_menu.rs`, lines 135-270)

`list_state.selected()` is the `tui::widgets::ListState` selection, a plain
`Option<usize>`.  `anyhow::Result` methods that can also panic (`usize`
underflow in debug builds, `todo!`, out-of-range indexing) are modelled as
`Option` with `none` for the panic; the `Ok` results carry the new state. -/

/-- `SelectMenuState` from `src/widgets/select_menu.rs`;
`listStateSelected` is the wrapped `ListState`'s selected index. -/
structure SelectMenuState (α : Type) where
  active : Bool
  allowEmptySelection : Bool
  items : List α
  listStateSelected : Option Nat
deriving DecidableEq, Repr

/-- Rust debug-mode `usize` subtraction: panics (`none`) on underflow. -/
def usizeSub (a b : Nat) : Option Nat :=
  if b ≤ a then some (a - b) else none

/-- `SelectMenuState::selected`: `some selection` on success (`selection` is
`None` for the conventional empty-selection slot), `none` when
`self.items[n]` would panic. -/
def SelectMenuState.selected {α : Type} (s : SelectMenuState α) :
    Option (Option α) :=
  match s.listStateSelected with
  | none => some none
  | some n =>
    match (if s.allowEmptySelection then
        (if n = 0 then none else some (n - 1))
      else some n) with
    | none => some none
    | some i =>
      match s.items.get? i with
      | some item => some (some item)
      | none => none

/-- `SelectMenuState::select_index`: always `Ok`, just sets the selection. -/
def SelectMenuState.selectIndex {α : Type} (s : SelectMenuState α) (n : Nat) :
    SelectMenuState α :=
  { s with listStateSelected := some n }

/-- `SelectMenuState::select_prev`: with no current selection the target
index is `items.len()` when empty selection is allowed and
`items.len() - 1` (panicking `usize` subtraction) otherwise; with a current
selection it decrements, clamped at `0`. -/
def SelectMenuState.selectPrev {α : Type} (s : SelectMenuState α) :
    Option (SelectMenuState α) :=
  match (match s.listStateSelected with
    | none =>
      if s.allowEmptySelection then some s.items.length
      else usizeSub s.items.length 1
    | some n => some (if n > 0 then n - 1 else 0)) with
  | some n => some (s.selectIndex n)
  | none => none

/-- `SelectMenuState::select_next`: with no current selection the target
index is `0`; with a current selection it increments, clamped at
`items.len()` when empty selection is allowed and at `items.len() - 1`
(panicking `usize` subtraction) otherwise. -/
def SelectMenuState.selectNext {α : Type} (s : SelectMenuState α) :
    Option (SelectMenuState α) :=
  match (match s.listStateSelected with
    | none => some 0
    | some n =>
      match (if s.allowEmptySelection then some s.items.length
        else usizeSub s.items.length 1) with
      | some l => some (if n < l then n + 1 else n)
      | none => none) with
  | some n => some (s.selectIndex n)
  | none => none

/-- `SelectMenuState::point_to_index`: `some (some n)` for a row hit,
`some none` for a miss, `none` when the `todo!()` for scrollable lists would
panic. -/
def SelectMenuState.pointToIndex {α : Type} (s : SelectMenuState α)
    (menuArea : Rect) (p : Nat × Nat) : Option (Option Nat) :=
  let innerArea := menuArea.inner 1 1
  if innerArea.left ≤ p.1 && p.1 ≤ innerArea.right &&
      innerArea.top ≤ p.2 && p.2 ≤ innerArea.bottom then
    if innerArea.height < s.items.length then
      none
    else
      let n := p.2 - innerArea.top
      let l := s.items.length
      let l := if s.allowEmptySelection then l + 1 else l
      if n < l then some (some n) else some none
  else
    some none

/-! ## Select-menu reducer (`src/event.rs`, `to_select_menu_events`,
lines 521-789)

Same fold shape as the text-field reducer; `toStr` models the
`V: ToString` bound (`to_string` applied to the selected item for
`Accept`). -/

/-- The accumulator of the `to_select_menu_events` fold. -/
structure SelectMenuAcc (α : Type) where
  ev : Option SelectMenuEvent
  state : SelectMenuState α
  saved : SelectMenuState α
  overlay : OverlayState
deriving DecidableEq, Repr

/-- One step of the `to_select_menu_events` fold.  `none` models a panic:
the `unwrap()` on `select_prev`/`select_next`/`selected_index`, the
`unreachable!`/`unimplemented!` arms, and panics inside `selected` or
`point_to_index`. -/
def selectMenuStep {α : Type} (toStr : α → List Char)
    (activationHotkey : KeyCode) (selfUiTarget : UiTarget)
    (selectMenuEventMap : Option UiTarget → Option SelectMenuEvent)
    (acc : SelectMenuAcc α)
    (input : InputEvent × OverlayState × List (UiTarget × Rect)) :
    Option (SelectMenuAcc α) :=
  let eventMap : Option UiTarget → Option SelectMenuEvent :=
    fun k => if k = some selfUiTarget then none else selectMenuEventMap k
  let overlayState := input.2.1
  let uiTargetAreas := input.2.2
  let noop : SelectMenuAcc α := ⟨none, acc.state, acc.saved, overlayState⟩
  if acc.overlay ≠ overlayState then
    let overlayStateChanged :=
      match overlayState with
      | .active => !acc.state.active
      | .inactive => acc.state.active
    if !overlayStateChanged then
      some noop
    else
      match acc.overlay, overlayState with
      | .inactive, .active =>
        some ⟨some .activate, { acc.saved with active := true }, acc.saved,
          overlayState⟩
      | .active, .inactive =>
        some ⟨some .deactivate, acc.saved, acc.saved, overlayState⟩
      | _, _ => none
  else
    match input.1 with
    | .key code =>
      if code = .enter ∧ acc.state.active = true then
        let selectMenuState := { acc.state with active := false }
        match selectMenuState.selected with
        | some selection =>
          some ⟨some (.accept (selection.map toStr)), selectMenuState,
            selectMenuState, overlayState⟩
        | none => none
      else if code = .esc ∧ acc.state.active = true then
        some ⟨some .deactivate, acc.saved, acc.saved, overlayState⟩
      else if code = .up ∧ acc.state.active = true then
        match acc.state.selectPrev with
        | some selectMenuState =>
          match selectMenuState.listStateSelected with
          | some n =>
            some ⟨some (.selectIndex n), selectMenuState, acc.saved,
              overlayState⟩
          | none => none
        | none => none
      else if code = .down ∧ acc.state.active = true then
        match acc.state.selectNext with
        | some selectMenuState =>
          match selectMenuState.listStateSelected with
          | some n =>
            some ⟨some (.selectIndex n), selectMenuState, acc.saved,
              overlayState⟩
          | none => none
        | none => none
      else if code = activationHotkey ∧ acc.state.active = false then
        some ⟨some .activate, { acc.saved with active := true }, acc.saved,
          overlayState⟩
      else
        some noop
    | .mouseUpLeft x y =>
      let hit := uiTargetAreas.find? (fun pair => pair.2.containsPoint x y)
      let mapCase : Option (SelectMenuAcc α) :=
        match eventMap (hit.map Prod.fst) with
        | some .activate =>
          if acc.state.active then
            some noop
          else
            some ⟨some .activate, { acc.saved with active := true }, acc.saved,
              overlayState⟩
        | some .deactivate =>
          if acc.state.active then
            some ⟨some .deactivate, acc.saved, acc.saved, overlayState⟩
          else
            some noop
        | some .toggle =>
          if acc.state.active then
            some ⟨some .deactivate, acc.saved, acc.saved, overlayState⟩
          else
            some ⟨some .activate, { acc.saved with active := true }, acc.saved,
              overlayState⟩
        | some _ => none
        | none => some noop
      match hit with
      | some (uiTarget, area) =>
        if uiTarget = selfUiTarget ∧ acc.state.active = true then
          match acc.state.pointToIndex area (x, y) with
          | some (some n) =>
            let selectMenuState :=
              { acc.state.selectIndex n with active := false }
            match selectMenuState.selected with
            | some selection =>
              some ⟨some (.accept (selection.map toStr)), selectMenuState,
                selectMenuState, overlayState⟩
            | none => none
          | some none => some noop
          | none => none
        else
          mapCase
      | none => mapCase
    | _ => some noop

/-- Run the `to_select_menu_events` fold over a list of inputs, collecting
the `(event, state)` outputs the downstream `filter_map` emits (one per step
whose accumulator holds `Some` event). -/
def selectMenuRun {α : Type} (toStr : α → List Char)
    (activationHotkey : KeyCode) (selfUiTarget : UiTarget)
    (selectMenuEventMap : Option UiTarget → Option SelectMenuEvent)
    (acc : SelectMenuAcc α) :
    List (InputEvent × OverlayState × List (UiTarget × Rect)) →
    Option (SelectMenuAcc α × List (SelectMenuEvent × SelectMenuState α))
  | [] => some (acc, [])
  | i :: rest =>
    match selectMenuStep toStr activationHotkey selfUiTarget
        selectMenuEventMap acc i with
    | none => none
    | some acc2 =>
      match selectMenuRun toStr activationHotkey selfUiTarget
          selectMenuEventMap acc2 rest with
      | none => none
      | some (accFin, outs) =>
        some (accFin,
          (match acc2.ev with
            | some ev => [(ev, acc2.state)]
            | none => []) ++ outs)

/-! ## Date ranges (`src/app.rs`, `TimeFrame` and `to_date_ranges`,
lines 135-236 and 451-501)

Dates are modelled at day granularity: `nowDay` is the day number of
`Utc::now()` (so `Utc::now().date().and_hms(0, 0, 0) + Duration::days(1)`
is day `nowDay + 1`), and a `DateRange` is the `(start, end)` pair of day
numbers.  The wall clock enters `to_date_ranges` only through
`TimeFrame::now_date_range`, so `nowDay` is the one extra parameter of the
embedding. -/

/-- `TimeFrame` from `src/app.rs`. -/
inductive TimeFrame where
  | fiveDays
  | oneMonth
  | threeMonths
  | sixMonths
  | yearToDate
  | oneYear
  | twoYears
  | fiveYears
  | tenYears
  | max
deriving DecidableEq, Repr

/-- `TimeFrame::duration` in days (`YearToDate` and `Max` have none). -/
def TimeFrame.duration : TimeFrame → Option Int
  | .fiveDays => some 5
  | .oneMonth => some 30
  | .threeMonths => some (30 * 3)
  | .sixMonths => some (30 * 6)
  | .oneYear => some (30 * 12)
  | .twoYears => some (30 * 12 * 2)
  | .fiveYears => some (30 * 12 * 5)
  | .tenYears => some (30 * 12 * 10)
  | _ => none

/-- `TimeFrame::now_date_range`: the range ending at the start of tomorrow
(day `nowDay + 1`), of the time frame's duration.  Reads the wall clock
(`Utc::now()`), passed here as `nowDay`. -/
def TimeFrame.nowDateRange (tf : TimeFrame) (nowDay : Int) :
    Option (Int × Int) :=
  tf.duration.map (fun d => (nowDay + 1 - d, nowDay + 1))

/-- One step of the `to_date_ranges` fold.  The accumulator is
`(Option<String>, Option<TimeFrame>, Option<DateRange>)`; each input is
`(InputEvent, String, TimeFrame, Option<UiTarget>)` from the upstream
`combine_latest`/`with_latest_from`.  `none` models the `unwrap()` panics. -/
def toDateRangesStep (nowDay : Int)
    (acc : Option String × Option TimeFrame × Option (Int × Int))
    (input : InputEvent × String × TimeFrame × Option UiTarget) :
    Option (Option String × Option TimeFrame × Option (Int × Int)) :=
  let ev := input.1
  let stockSymbol := input.2.1
  let timeFrame := input.2.2.1
  let activeOverlayUiTarget := input.2.2.2
  let accStockSymbol := acc.1
  let accTimeFrame := acc.2.1
  let stockSymbolChanged :=
    accStockSymbol.isSome = true ∧ accStockSymbol ≠ some stockSymbol
  let timeFrameChanged :=
    accTimeFrame.isSome = true ∧ accTimeFrame ≠ some timeFrame
  let accDateRange :=
    if accTimeFrame.isSome = true ∧ ¬stockSymbolChanged ∧ ¬timeFrameChanged
    then acc.2.2
    else timeFrame.nowDateRange nowDay
  if stockSymbolChanged ∨ timeFrameChanged then
    some (some stockSymbol, some timeFrame, accDateRange)
  else
    match ev with
    | .key code =>
      if code = .left ∧ activeOverlayUiTarget = none then
        match timeFrame.duration with
        | some duration =>
          match accDateRange with
          | some r =>
            some (some stockSymbol, some timeFrame, some (r.1 - duration, r.1))
          | none => none
        | none => some (some stockSymbol, some timeFrame, none)
      else if code = .right ∧ activeOverlayUiTarget = none then
        match timeFrame.duration with
        | some duration =>
          match accDateRange with
          | some r =>
            match timeFrame.nowDateRange nowDay with
            | some maxRange =>
              some (some stockSymbol, some timeFrame,
                some (if r.2 + duration > maxRange.2 then maxRange
                  else (r.2, r.2 + duration)))
            | none => none
          | none => none
        | none => some (some stockSymbol, some timeFrame, none)
      else
        some (accStockSymbol, accTimeFrame, accDateRange)
    | _ => some (accStockSymbol, accTimeFrame, accDateRange)

/-- The successive fold accumulators of `to_date_ranges` (one per input). -/
def toDateRangesAccsFrom (nowDay : Int)
    (acc : Option String × Option TimeFrame × Option (Int × Int)) :
    List (InputEvent × String × TimeFrame × Option UiTarget) →
    Option (List (Option String × Option TimeFrame × Option (Int × Int)))
  | [] => some []
  | i :: rest =>
    match toDateRangesStep nowDay acc i with
    | none => none
    | some acc2 => (toDateRangesAccsFrom nowDay acc2 rest).map (acc2 :: ·)

/-- The observable output of `to_date_ranges`: the fold's date-range
component, deduplicated by the trailing `distinct_until_changed`. -/
def toDateRangesRun (nowDay : Int)
    (inputs : List (InputEvent × String × TimeFrame × Option UiTarget)) :
    Option (List (Option (Int × Int))) :=
  (toDateRangesAccsFrom nowDay (none, none, none) inputs).map
    (fun accs => distinctRun (accs.map (fun a => a.2.2)))

/-- The time-frame menu items of the spec's select-menu scenario
(`[5d, 1mo, 3mo]`), as strings. -/
def timeFrameMenuItems : List (List Char) :=
  [['5', 'd'], ['1', 'm', 'o'], ['3', 'm', 'o']]

/-! ## Helper lemmas -/

theorem distinctRunFrom_append {α : Type} [DecidableEq α] (buf : Option α)
    (xs ys : List α) :
    distinctRunFrom buf (xs ++ ys) =
      distinctRunFrom buf xs ++ distinctRunFrom (distinctBufAfterFrom buf xs) ys := by
  induction xs generalizing buf with
  | nil => simp [distinctRunFrom, distinctBufAfterFrom]
  | cons x xs ih =>
    simp [distinctRunFrom, distinctBufAfterFrom, ih]

theorem distinctStep_of_eq {α : Type} [DecidableEq α] (x : α) :
    distinctStep (some x) x = (some x, []) := by
  simp [distinctStep]

theorem distinctStep_of_ne {α : Type} [DecidableEq α] (buf : Option α) (x : α)
    (h : buf ≠ some x) : distinctStep buf x = (some x, [x]) := by
  simp [distinctStep, h]

/-- C5: `distinct_until_changed` — the first item is always emitted, an item
equal to the last emitted item is suppressed, an item different from the
last emitted item is emitted (so a value sent twice in a row yields exactly
one emission), and input `[1,1,2,2,2,3]` yields `[1,2,3]`. -/
theorem distinct_until_changed_spec :
    (∀ (α : Type) [DecidableEq α] (x : α) (xs : List α),
      ∃ rest, distinctRun (x :: xs) = x :: rest) ∧
    (∀ (α : Type) [DecidableEq α] (xs : List α) (x : α),
      distinctBufAfter xs = some x →
      distinctRun (xs ++ [x]) = distinctRun xs) ∧
    (∀ (α : Type) [DecidableEq α] (xs : List α) (x : α),
      distinctBufAfter xs ≠ some x →
      distinctRun (xs ++ [x]) = distinctRun xs ++ [x]) ∧
    (∀ (α : Type) [DecidableEq α] (xs : List α) (x : α),
      distinctBufAfter xs ≠ some x →
      distinctRun (xs ++ [x, x]) = distinctRun xs ++ [x]) ∧
    distinctRun [1, 1, 2, 2, 2, 3] = ([1, 2, 3] : List Nat) := by
  refine ⟨?_, ?_, ?_, ?_, by decide⟩
  · intro α _ x xs
    refine ⟨distinctRunFrom (some x) xs, ?_⟩
    have h : (none : Option α) ≠ some x := by simp
    simp [distinctRun, distinctRunFrom, distinctStep_of_ne _ _ h]
  · intro α _ xs x h
    simp [distinctRun, distinctBufAfter] at h ⊢
    rw [distinctRunFrom_append, h]
    simp [distinctRunFrom, distinctStep_of_eq]
  · intro α _ xs x h
    simp [distinctRun, distinctBufAfter] at h ⊢
    rw [distinctRunFrom_append]
    simp [distinctRunFrom, distinctStep_of_ne _ _ h]
  · intro α _ xs x h
    simp [distinctRun, distinctBufAfter] at h ⊢
    rw [distinctRunFrom_append]
    simp [distinctRunFrom, distinctStep_of_ne _ _ h, distinctStep_of_eq]

/-- C5 witness: suppression applied at a concrete input — after `[4, 5]` the
buffer holds `5`, so a further `5` is suppressed. -/
theorem distinct_until_changed_spec_witness :
    distinctBufAfter [4, 5] = some 5 ∧
    distinctRun [4, 5, 5] = distinctRun ([4, 5] : List Nat) :=
  ⟨by decide, distinct_until_changed_spec.2.1 Nat [4, 5] 5 (by decide)⟩

theorem latestLeft_foldl {α β : Type} (es : List (SrcEvent α β)) (a0 : Option α) :
    es.foldl latestLeftStep a0 =
      match latestLeft es with
      | some a => some a
      | none => a0 := by
  induction es generalizing a0 with
  | nil => simp [latestLeft]
  | cons e es ih =>
    have hexp : latestLeft (e :: es) = es.foldl latestLeftStep (latestLeftStep none e) :=
      rfl
    rw [List.foldl_cons, hexp, ih (latestLeftStep a0 e), ih (latestLeftStep none e)]
    cases e with
    | left a => cases latestLeft es <;> rfl
    | right b => cases latestLeft es <;> rfl

theorem latestRight_foldl {α β : Type} (es : List (SrcEvent α β)) (b0 : Option β) :
    es.foldl latestRightStep b0 =
      match latestRight es with
      | some b => some b
      | none => b0 := by
  induction es generalizing b0 with
  | nil => simp [latestRight]
  | cons e es ih =>
    have hexp : latestRight (e :: es) = es.foldl latestRightStep (latestRightStep none e) :=
      rfl
    rw [List.foldl_cons, hexp, ih (latestRightStep b0 e), ih (latestRightStep none e)]
    cases e with
    | left a => cases latestRight es <;> rfl
    | right b => cases latestRight es <;> rfl

theorem combineLatestBufAfterFrom_eq {α β : Type} (s : Option α × Option β)
    (es : List (SrcEvent α β)) :
    combineLatestBufAfterFrom s es =
      ((match latestLeft es with | some a => some a | none => s.1),
       (match latestRight es with | some b => some b | none => s.2)) := by
  induction es generalizing s with
  | nil => simp [combineLatestBufAfterFrom, latestLeft, latestRight]
  | cons e es ih =>
    have hL : latestLeft (e :: es) = es.foldl latestLeftStep (latestLeftStep none e) :=
      rfl
    have hR : latestRight (e :: es) = es.foldl latestRightStep (latestRightStep none e) :=
      rfl
    rw [combineLatestBufAfterFrom, ih, hL, hR,
      latestLeft_foldl es (latestLeftStep none e),
      latestRight_foldl es (latestRightStep none e)]
    cases e with
    | left a =>
      cases latestLeft es <;> cases latestRight es <;>
        simp [combineLatestStep, latestLeftStep, latestRightStep]
    | right b =>
      cases latestLeft es <;> cases latestRight es <;>
        simp [combineLatestStep, latestLeftStep, latestRightStep]

theorem combineLatestRunFrom_append {α β : Type} (s : Option α × Option β)
    (xs ys : List (SrcEvent α β)) :
    combineLatestRunFrom s (xs ++ ys) =
      combineLatestRunFrom s xs ++
        combineLatestRunFrom (combineLatestBufAfterFrom s xs) ys := by
  induction xs generalizing s with
  | nil => simp [combineLatestRunFrom, combineLatestBufAfterFrom]
  | cons x xs ih =>
    simp [combineLatestRunFrom, combineLatestBufAfterFrom, ih]

theorem combineLatestRunFrom_no_right {α β : Type} (s : Option α × Option β)
    (es : List (SrcEvent α β)) (hes : latestRight es = none) (hs : s.2 = none) :
    combineLatestRunFrom s es = [] := by
  induction es generalizing s with
  | nil => rfl
  | cons e es ih =>
    have hR : latestRight (e :: es) = es.foldl latestRightStep (latestRightStep none e) :=
      rfl
    rw [hR, latestRight_foldl es (latestRightStep none e)] at hes
    cases e with
    | left a =>
      have hes2 : latestRight es = none := by
        revert hes
        cases latestRight es <;> simp [latestRightStep]
      rw [combineLatestRunFrom, combineLatestStep, hs]
      simpa using ih (some a, none) hes2 rfl
    | right b =>
      exfalso
      revert hes
      cases latestRight es <;> simp [latestRightStep]

theorem combineLatestRunFrom_no_left {α β : Type} (s : Option α × Option β)
    (es : List (SrcEvent α β)) (hes : latestLeft es = none) (hs : s.1 = none) :
    combineLatestRunFrom s es = [] := by
  induction es generalizing s with
  | nil => rfl
  | cons e es ih =>
    have hL : latestLeft (e :: es) = es.foldl latestLeftStep (latestLeftStep none e) :=
      rfl
    rw [hL, latestLeft_foldl es (latestLeftStep none e)] at hes
    cases e with
    | right b =>
      have hes2 : latestLeft es = none := by
        revert hes
        cases latestLeft es <;> simp [latestLeftStep]
      rw [combineLatestRunFrom, combineLatestStep, hs]
      simpa using ih (none, some b) hes2 rfl
    | left a =>
      exfalso
      revert hes
      cases latestLeft es <;> simp [latestLeftStep]

/-- C4: `combine_latest` emits nothing until both sides have produced at
least one item; from then on each new item on either side yields exactly one
output pairing the latest left item with the latest right item; and the
concrete run A:`1`, A:`2`, B:`"x"` yields exactly `[(2, "x")]`. -/
theorem combine_latest_spec :
    (∀ (α β : Type) (es : List (SrcEvent α β)),
      latestLeft es = none ∨ latestRight es = none → combineLatestRun es = []) ∧
    (∀ (α β : Type) (es : List (SrcEvent α β)) (e : SrcEvent α β),
      latestLeft es ≠ none → latestRight es ≠ none →
      ∃ a b, latestLeft (es ++ [e]) = some a ∧ latestRight (es ++ [e]) = some b ∧
        combineLatestRun (es ++ [e]) = combineLatestRun es ++ [(a, b)]) ∧
    combineLatestRun [SrcEvent.left 1, SrcEvent.left 2, SrcEvent.right "x"] =
      ([(2, "x")] : List (Nat × String)) := by
  refine ⟨?_, ?_, rfl⟩
  · intro α β es h
    cases h with
    | inl h => exact combineLatestRunFrom_no_left (none, none) es h rfl
    | inr h => exact combineLatestRunFrom_no_right (none, none) es h rfl
  · intro α β es e hL hR
    cases hA : latestLeft es with
    | none => exact absurd hA hL
    | some a =>
      cases hB : latestRight es with
      | none => exact absurd hB hR
      | some b =>
        have hbuf2 : combineLatestBufAfterFrom (none, none) es = (some a, some b) := by
          rw [combineLatestBufAfterFrom_eq, hA, hB]
        have happ : combineLatestRun (es ++ [e]) =
            combineLatestRun es ++ combineLatestRunFrom (some a, some b) [e] := by
          simp only [combineLatestRun]
          rw [combineLatestRunFrom_append, hbuf2]
        cases e with
        | left a2 =>
          refine ⟨a2, b, ?_, ?_, ?_⟩
          · simp [latestLeft, List.foldl_append, latestLeftStep]
          · simp only [latestRight, List.foldl_append] at hB ⊢
            simpa [latestRightStep] using hB
          · rw [happ]
            rfl
        | right b2 =>
          refine ⟨a, b2, ?_, ?_, ?_⟩
          · simp only [latestLeft, List.foldl_append] at hA ⊢
            simpa [latestLeftStep] using hA
          · simp [latestRight, List.foldl_append, latestRightStep]
          · rw [happ]
            rfl

/-- C4 witness: after A:`1`, B:`"x"`, a further B:`"y"` yields exactly one
output, pairing the latest values. -/
theorem combine_latest_spec_witness :
    ∃ a b,
      latestLeft ([SrcEvent.left 1, SrcEvent.right "x"] ++ [SrcEvent.right "y"]) =
        some a ∧
      latestRight ([SrcEvent.left 1, SrcEvent.right "x"] ++ [SrcEvent.right "y"]) =
        some b ∧
      combineLatestRun
          ([SrcEvent.left 1, SrcEvent.right "x"] ++ [SrcEvent.right "y"]) =
        combineLatestRun [SrcEvent.left (1 : Nat), SrcEvent.right "x"] ++ [(a, b)] :=
  combine_latest_spec.2.1 Nat String [SrcEvent.left 1, SrcEvent.right "x"]
    (SrcEvent.right "y") (by decide) (by decide)

theorem queueOverlayStep_snd_eq (acc : OverlayMap × OverlayMap)
    (i : UiTarget × OverlayEvent) :
    (queueOverlayStep acc i).2 = fun k =>
      if k = i.1 then
        some (overlayEventState ((acc.2 i.1).getD .inactive) i.2)
      else
        match overlayEventState ((acc.2 i.1).getD .inactive) i.2 with
        | .active =>
          (match acc.2 k with
            | some .active => some .inactive
            | x => x)
        | .inactive => acc.2 k := by
  funext k
  simp only [queueOverlayStep, OverlayMap.union]
  by_cases hk : k = i.1
  · simp [hk]
  · simp only [hk, if_neg hk]
    cases overlayEventState ((acc.2 i.1).getD .inactive) i.2 with
    | active => cases hm : acc.2 k with
      | none => simp [OverlayMap.union, hm]
      | some st => cases st <;> simp [OverlayMap.union, hm]
    | inactive => simp

theorem queueOverlayStep_fst_eq (acc : OverlayMap × OverlayMap)
    (i : UiTarget × OverlayEvent) :
    (queueOverlayStep acc i).1 =
      OverlayMap.differenceWith acc.2 (queueOverlayStep acc i).2
        (fun accSt st => if accSt ≠ st then some st else none) :=
  rfl

theorem queueOverlayStep_atMostOne (acc : OverlayMap × OverlayMap)
    (i : UiTarget × OverlayEvent) (h : atMostOneActive acc.2) :
    atMostOneActive (queueOverlayStep acc i).2 := by
  intro t1 t2 h1 h2
  rw [queueOverlayStep_snd_eq] at h1 h2
  cases hst : overlayEventState ((acc.2 i.1).getD .inactive) i.2 with
  | active =>
    simp only [hst] at h1 h2
    by_cases ht1 : t1 = i.1 <;> by_cases ht2 : t2 = i.1
    · rw [ht1, ht2]
    · exfalso
      simp only [ht2, if_neg ht2] at h2
      cases hm : acc.2 t2 with
      | none => simp [hm] at h2
      | some st => cases st <;> simp [hm] at h2
    · exfalso
      simp only [ht1, if_neg ht1] at h1
      cases hm : acc.2 t1 with
      | none => simp [hm] at h1
      | some st => cases st <;> simp [hm] at h1
    · exfalso
      simp only [ht1, if_neg ht1] at h1
      cases hm : acc.2 t1 with
      | none => simp [hm] at h1
      | some st => cases st <;> simp [hm] at h1
  | inactive =>
    simp only [hst] at h1 h2
    by_cases ht1 : t1 = i.1 <;> by_cases ht2 : t2 = i.1
    · rw [ht1, ht2]
    · simp only [ht1, if_pos rfl] at h1
      exact absurd h1 (by simp)
    · simp only [ht2, if_pos rfl] at h2
      exact absurd h2 (by simp)
    · simp only [if_neg ht1] at h1
      simp only [if_neg ht2] at h2
      exact h t1 t2 h1 h2

theorem queueOverlayFoldl_atMostOne (evs : List (UiTarget × OverlayEvent))
    (acc : OverlayMap × OverlayMap) (h : atMostOneActive acc.2) :
    atMostOneActive ((evs.foldl queueOverlayStep acc)).2 := by
  induction evs generalizing acc with
  | nil => exact h
  | cons e evs ih => exact ih _ (queueOverlayStep_atMostOne acc e h)

/-- C2: the overlay arbitration fold keeps at most one `UiTarget` in the
`Active` state after every step, and an event that activates `B` while `A`
is `Active` puts both `(A, Inactive)` and `(B, Active)` into the changeset
queued for the next tick, in the same batch. -/
theorem overlay_arbitration_spec :
    (∀ evs : List (UiTarget × OverlayEvent),
      atMostOneActive (queueOverlayRun evs).2) ∧
    (∀ (cs m : OverlayMap) (A B : UiTarget) (ev : OverlayEvent),
      atMostOneActive m → m A = some .active → A ≠ B →
      overlayEventState ((m B).getD .inactive) ev = .active →
      (queueOverlayStep (cs, m) (B, ev)).1 A = some .inactive ∧
      (queueOverlayStep (cs, m) (B, ev)).1 B = some .active) := by
  constructor
  · intro evs
    refine queueOverlayFoldl_atMostOne evs (fun _ => none, fun _ => none) ?_
    intro t1 t2 h1 _
    exact absurd h1 (by simp)
  · intro cs m A B ev h hA hAB hev
    have hMA : (queueOverlayStep (cs, m) (B, ev)).2 A = some .inactive := by
      rw [queueOverlayStep_snd_eq]
      simp only [if_neg hAB, hev, hA]
    have hMB : (queueOverlayStep (cs, m) (B, ev)).2 B = some .active := by
      rw [queueOverlayStep_snd_eq]
      simp [hev]
    have hmB : m B ≠ some .active := by
      intro hc
      exact absurd (h A B hA hc) hAB
    constructor
    · simp only [queueOverlayStep_fst_eq, OverlayMap.differenceWith]
      rw [hMA, hA]
      simp
    · simp only [queueOverlayStep_fst_eq, OverlayMap.differenceWith]
      rw [hMB]
      cases hm : m B with
      | none => simp
      | some st =>
        cases st with
        | active => exact absurd hm hmB
        | inactive => simp

/-- C2 witness: with `StockSymbolInput` active, a `SelectMenuEvent::Activate`
for `TimeFrameList` queues both transitions in one batch. -/
theorem overlay_arbitration_spec_witness :
    (queueOverlayStep
        (fun _ => none,
          fun t => if t = UiTarget.stockSymbolInput then some .active else none)
        (UiTarget.timeFrameList, OverlayEvent.selectMenu .activate)).1
        UiTarget.stockSymbolInput = some .inactive ∧
    (queueOverlayStep
        (fun _ => none,
          fun t => if t = UiTarget.stockSymbolInput then some .active else none)
        (UiTarget.timeFrameList, OverlayEvent.selectMenu .activate)).1
        UiTarget.timeFrameList = some .active :=
  overlay_arbitration_spec.2 (fun _ => none)
    (fun t => if t = UiTarget.stockSymbolInput then some .active else none)
    UiTarget.stockSymbolInput UiTarget.timeFrameList
    (OverlayEvent.selectMenu .activate)
    (by intro t1 t2 h1 h2; revert h1 h2; cases t1 <;> cases t2 <;> simp)
    (by simp) (by simp) (by simp [overlayEventState])

/-- C3 (amended): while an overlay is `Active`, every *key* event is grouped
under it; a left mouse click is grouped under the active overlay only when
it hits no buffered target area — a click that hits a target area is grouped
under that target's associated overlay, which need not be the active one. -/
theorem grouped_user_input_key_spec :
    (∀ (hotkeyOverlayMap : KeyCode → Option UiTarget)
       (associatedOverlayMap : UiTarget → Option UiTarget)
       (areas : List (UiTarget × Rect)) (activeOverlay : UiTarget)
       (code : KeyCode),
      groupedUserInputKey hotkeyOverlayMap associatedOverlayMap
        (.key code, areas, some activeOverlay) = some activeOverlay) ∧
    (∀ (hotkeyOverlayMap : KeyCode → Option UiTarget)
       (associatedOverlayMap : UiTarget → Option UiTarget)
       (areas : List (UiTarget × Rect)) (activeOverlay : Option UiTarget)
       (x y : Nat),
      areas.find? (fun pair => pair.2.containsPoint x y) = none →
      groupedUserInputKey hotkeyOverlayMap associatedOverlayMap
        (.mouseUpLeft x y, areas, activeOverlay) = activeOverlay) ∧
    (∀ (hotkeyOverlayMap : KeyCode → Option UiTarget)
       (associatedOverlayMap : UiTarget → Option UiTarget)
       (areas : List (UiTarget × Rect)) (activeOverlay : Option UiTarget)
       (x y : Nat) (clicked : UiTarget) (r : Rect),
      areas.find? (fun pair => pair.2.containsPoint x y) = some (clicked, r) →
      groupedUserInputKey hotkeyOverlayMap associatedOverlayMap
        (.mouseUpLeft x y, areas, activeOverlay) = associatedOverlayMap clicked) := by
  refine ⟨?_, ?_, ?_⟩
  · intro hotkeyOverlayMap associatedOverlayMap areas activeOverlay code
    rfl
  · intro hotkeyOverlayMap associatedOverlayMap areas activeOverlay x y hfind
    simp only [groupedUserInputKey]
    rw [hfind]
  · intro hotkeyOverlayMap associatedOverlayMap areas activeOverlay x y clicked r hfind
    simp only [groupedUserInputKey]
    rw [hfind]

/-- C3 witness: a click hitting the `TimeFrameBox` area resolves to its
associated overlay via the hit-test conjunct of the grouping theorem. -/
theorem grouped_user_input_key_spec_witness :
    [(UiTarget.timeFrameBox, (⟨0, 0, 10, 10⟩ : Rect))].find?
        (fun pair => pair.2.containsPoint 1 1) =
      some (UiTarget.timeFrameBox, ⟨0, 0, 10, 10⟩) ∧
    groupedUserInputKey mainHotkeyOverlayMap mainAssociatedOverlayMap
        (.mouseUpLeft 1 1, [(UiTarget.timeFrameBox, ⟨0, 0, 10, 10⟩)],
          some UiTarget.stockSymbolInput) =
      mainAssociatedOverlayMap UiTarget.timeFrameBox :=
  ⟨by decide,
    grouped_user_input_key_spec.2.2 mainHotkeyOverlayMap mainAssociatedOverlayMap
      [(UiTarget.timeFrameBox, ⟨0, 0, 10, 10⟩)] (some UiTarget.stockSymbolInput)
      1 1 UiTarget.timeFrameBox ⟨0, 0, 10, 10⟩ (by decide)⟩

/-- C3 counterexample: with `StockSymbolInput` active, a left click inside
the `TimeFrameBox` area is grouped under `TimeFrameList`, not under the
active overlay — refuting "grouped under that Active overlay regardless of
the event's location on screen". -/
theorem grouped_user_input_key_counterexample :
    groupedUserInputKey mainHotkeyOverlayMap mainAssociatedOverlayMap
        (.mouseUpLeft 1 1, [(UiTarget.timeFrameBox, ⟨0, 0, 10, 10⟩)],
          some UiTarget.stockSymbolInput) = some UiTarget.timeFrameList ∧
    (some UiTarget.timeFrameList ≠ some UiTarget.stockSymbolInput) := by
  decide

/-- C7: in any `Active` state with `cursor_offset = 0`, a `Backspace` key
event (in a step whose overlay state is unchanged) emits
`BackspacePastStart` and leaves the field state, the saved state and the
overlay state untouched — no mutation, no panic. -/
theorem textField_backspace_past_start
    (mapValueFunc : List Char → List Char) (activationHotkey : KeyCode)
    (selfUiTarget : UiTarget)
    (textFieldEventMap : Option UiTarget → Option TextFieldEvent)
    (acc : TextFieldAcc) (ov : OverlayState) (areas : List (UiTarget × Rect))
    (hactive : acc.state.active = true) (hcursor : acc.state.cursorOffset = 0)
    (hov : acc.overlay = ov) :
    textFieldStep mapValueFunc activationHotkey selfUiTarget textFieldEventMap
        acc (.key .backspace, ov, areas) =
      some ⟨some .backspacePastStart, acc.state, acc.saved, ov⟩ := by
  simp [textFieldStep, textFieldKeyStep, hov, hactive, hcursor]

/-- C7 witness: concrete `Active{"AB", 0}` state, Backspace. -/
theorem textField_backspace_past_start_witness :
    textFieldStep (fun v => v) (KeyCode.char 's') UiTarget.stockSymbolInput
        (fun _ => none)
        ⟨none, ⟨true, ['A', 'B'], 0⟩, ⟨false, [], 0⟩, OverlayState.inactive⟩
        (.key .backspace, OverlayState.inactive, []) =
      some ⟨some .backspacePastStart, ⟨true, ['A', 'B'], 0⟩, ⟨false, [], 0⟩,
        OverlayState.inactive⟩ :=
  textField_backspace_past_start (fun v => v) (KeyCode.char 's')
    UiTarget.stockSymbolInput (fun _ => none)
    ⟨none, ⟨true, ['A', 'B'], 0⟩, ⟨false, [], 0⟩, OverlayState.inactive⟩
    OverlayState.inactive [] rfl rfl rfl

/-- C1 (amended): Enter while `Active` with a non-empty value emits
`Accept(trim(value))` but resets both the current state and the saved state
to the *previous saved state* — the accepted value is not installed as the
new saved value (the field is deactivated exactly when the saved state is
inactive, which holds for the initial saved states the program uses). -/
theorem textField_enter_accept
    (mapValueFunc : List Char → List Char) (activationHotkey : KeyCode)
    (selfUiTarget : UiTarget)
    (textFieldEventMap : Option UiTarget → Option TextFieldEvent)
    (acc : TextFieldAcc) (ov : OverlayState) (areas : List (UiTarget × Rect))
    (hactive : acc.state.active = true) (hvalue : acc.state.value ≠ [])
    (hov : acc.overlay = ov) :
    textFieldStep mapValueFunc activationHotkey selfUiTarget textFieldEventMap
        acc (.key .enter, ov, areas) =
      some ⟨some (.accept (rustTrim acc.state.value)), acc.saved, acc.saved,
        ov⟩ := by
  simp [textFieldStep, textFieldKeyStep, hov, hactive, hvalue]

/-- C1 witness: concrete `Active{"AB", 2}` state with saved state
`Inactive{"", 0}`, Enter. -/
theorem textField_enter_accept_witness :
    textFieldStep (fun v => v) (KeyCode.char 's') UiTarget.stockSymbolInput
        (fun _ => none)
        ⟨none, ⟨true, ['A', 'B'], 2⟩, ⟨false, [], 0⟩, OverlayState.active⟩
        (.key .enter, OverlayState.active, []) =
      some ⟨some (.accept (rustTrim ['A', 'B'])), ⟨false, [], 0⟩,
        ⟨false, [], 0⟩, OverlayState.active⟩ :=
  textField_enter_accept (fun v => v) (KeyCode.char 's')
    UiTarget.stockSymbolInput (fun _ => none)
    ⟨none, ⟨true, ['A', 'B'], 2⟩, ⟨false, [], 0⟩, OverlayState.active⟩
    OverlayState.active [] rfl (by decide) rfl

/-- C1 counterexample: from `Active{"AB", 2}` with saved value `""`, Enter
emits `Accept("AB")` but the resulting saved value is `""`, not the accepted
`"AB"` — refuting "installs the accepted (trimmed) value as the new saved
value". -/
theorem textField_enter_counterexample :
    textFieldStep (fun v => v) (KeyCode.char 's') UiTarget.stockSymbolInput
        (fun _ => none)
        ⟨none, ⟨true, ['A', 'B'], 2⟩, ⟨false, [], 0⟩, OverlayState.active⟩
        (.key .enter, OverlayState.active, []) =
      some ⟨some (.accept ['A', 'B']), ⟨false, [], 0⟩, ⟨false, [], 0⟩,
        OverlayState.active⟩ ∧
    rustTrim ['A', 'B'] = ['A', 'B'] ∧
    ([] : List Char) ≠ ['A', 'B'] := by
  decide

set_option maxHeartbeats 1000000 in
theorem textFieldKeyStep_inv (mapValueFunc : List Char → List Char)
    (hf : ∀ v, (mapValueFunc v).length = v.length)
    (activationHotkey : KeyCode) (acc : TextFieldAcc)
    (overlayState : OverlayState) (code : KeyCode) (res : TextFieldAcc)
    (hres : textFieldKeyStep mapValueFunc activationHotkey acc overlayState
      code = res)
    (hstate : cursorInvariant acc.state) (hsaved : cursorInvariant acc.saved) :
    cursorInvariant res.state ∧ cursorInvariant res.saved := by
  unfold cursorInvariant at *
  cases code <;>
    (simp only [textFieldKeyStep] at hres
     split_ifs at hres <;>
       (subst hres
        refine ⟨?_, ?_⟩ <;> (try simp_all [hf]) <;> (try omega)))

set_option maxHeartbeats 1000000 in
theorem textFieldMouseStep_inv (selfUiTarget : UiTarget)
    (eventMap : Option UiTarget → Option TextFieldEvent) (acc : TextFieldAcc)
    (overlayState : OverlayState) (uiTargetAreas : List (UiTarget × Rect))
    (x y : Nat) (res : TextFieldAcc)
    (hres : textFieldMouseStep selfUiTarget eventMap acc overlayState
      uiTargetAreas x y = some res)
    (hstate : cursorInvariant acc.state) (hsaved : cursorInvariant acc.saved) :
    cursorInvariant res.state ∧ cursorInvariant res.saved := by
  unfold cursorInvariant at *
  simp only [textFieldMouseStep] at hres
  split_ifs at hres <;>
    (first
      | (obtain rfl := Option.some.inj hres; exact ⟨hstate, hsaved⟩)
      | (split at hres <;>
          first
          | exact Option.noConfusion hres
          | (obtain rfl := Option.some.inj hres
             first
             | exact ⟨hstate, hsaved⟩
             | exact ⟨hsaved, hsaved⟩)))

/-- C6 (amended): provided the caller-supplied normalizer `map_value_func`
preserves the character count (as the program's `to_ascii_uppercase`
normalizer does), every step of the `to_text_field_events` fold preserves
the invariant `0 ≤ cursor_offset ≤ len(value)` of both the current and the
saved `TextFieldState`.  Without that proviso the invariant can break (see
the counterexample). -/
theorem textField_cursor_invariant
    (mapValueFunc : List Char → List Char)
    (hf : ∀ v, (mapValueFunc v).length = v.length)
    (activationHotkey : KeyCode) (selfUiTarget : UiTarget)
    (textFieldEventMap : Option UiTarget → Option TextFieldEvent)
    (acc acc2 : TextFieldAcc)
    (input : InputEvent × OverlayState × List (UiTarget × Rect))
    (hstate : cursorInvariant acc.state) (hsaved : cursorInvariant acc.saved)
    (hstep : textFieldStep mapValueFunc activationHotkey selfUiTarget
      textFieldEventMap acc input = some acc2) :
    cursorInvariant acc2.state ∧ cursorInvariant acc2.saved := by
  obtain ⟨ev, ov2, areas⟩ := input
  simp only [textFieldStep] at hstep
  split_ifs at hstep
  · obtain rfl := Option.some.inj hstep
    exact ⟨hstate, hsaved⟩
  · cases hA : acc.overlay <;> cases ov2 <;> rw [hA] at hstep <;>
      first
      | exact Option.noConfusion hstep
      | (obtain rfl := Option.some.inj hstep
         first
         | exact ⟨hstate, hsaved⟩
         | exact ⟨hsaved, hsaved⟩)
  · cases ev with
    | key code =>
      exact textFieldKeyStep_inv mapValueFunc hf activationHotkey acc ov2 code
        acc2 (Option.some.inj hstep) hstate hsaved
    | mouseUpLeft x y =>
      exact textFieldMouseStep_inv selfUiTarget
        (fun k => if k = some selfUiTarget then none else textFieldEventMap k)
        acc ov2 areas x y acc2 hstep hstate hsaved
    | mouseOther =>
      obtain rfl := Option.some.inj hstep
      exact ⟨hstate, hsaved⟩
    | tick =>
      obtain rfl := Option.some.inj hstep
      exact ⟨hstate, hsaved⟩

/-- C6 witness: with the identity normalizer (length-preserving), a
Backspace from `Active{"AB", 2}` keeps the invariant. -/
theorem textField_cursor_invariant_witness :
    cursorInvariant (⟨true, ['A'], 1⟩ : TextFieldState) ∧
      cursorInvariant (⟨false, [], 0⟩ : TextFieldState) :=
  textField_cursor_invariant (fun v => v) (fun _ => rfl) (KeyCode.char 's')
    UiTarget.stockSymbolInput (fun _ => none)
    ⟨none, ⟨true, ['A', 'B'], 2⟩, ⟨false, [], 0⟩, OverlayState.inactive⟩
    ⟨some (TextFieldEvent.input ['A']), ⟨true, ['A'], 1⟩, ⟨false, [], 0⟩,
      OverlayState.inactive⟩
    (.key .backspace, OverlayState.inactive, [])
    (by decide) (by decide) (by decide)

/-- C6 counterexample: with the (caller-suppliable) normalizer that maps
every value to the empty string, typing `a` in `Active{"", 0}` yields
`cursor_offset = 1 > 0 = len(value)` — a transition of the fold from a
state satisfying the invariant to one violating it. -/
theorem textField_cursor_counterexample :
    textFieldStep (fun _ => []) (KeyCode.char 's') UiTarget.stockSymbolInput
        (fun _ => none)
        ⟨none, ⟨true, [], 0⟩, ⟨false, [], 0⟩, OverlayState.inactive⟩
        (.key (.char 'a'), OverlayState.inactive, []) =
      some ⟨some (.input []), ⟨true, [], 1⟩, ⟨false, [], 0⟩,
        OverlayState.inactive⟩ ∧
    cursorInvariant (⟨true, [], 0⟩ : TextFieldState) ∧
    ¬ cursorInvariant (⟨true, [], 1⟩ : TextFieldState) := by
  decide

/-- C8: from an active time-frame menu with items `[5d, 1mo, 3mo]`, no
selection and no overlay transition, two `Down` keys select index `0` then
index `1` (`"1mo"`), and `Enter` emits `Accept(Some "1mo")`, commits the
selection as the new saved state and deactivates the menu. -/
theorem select_menu_scenario :
    selectMenuRun (fun s => s) (KeyCode.char 't') UiTarget.timeFrameList
        (fun _ => none)
        ⟨none, ⟨true, false, timeFrameMenuItems, none⟩,
          ⟨false, false, timeFrameMenuItems, none⟩, OverlayState.active⟩
        [(.key .down, OverlayState.active, []),
         (.key .down, OverlayState.active, []),
         (.key .enter, OverlayState.active, [])] =
      some
        (⟨some (.accept (some ['1', 'm', 'o'])),
          ⟨false, false, timeFrameMenuItems, some 1⟩,
          ⟨false, false, timeFrameMenuItems, some 1⟩, OverlayState.active⟩,
        [(.selectIndex 0, ⟨true, false, timeFrameMenuItems, some 0⟩),
         (.selectIndex 1, ⟨true, false, timeFrameMenuItems, some 1⟩),
         (.accept (some ['1', 'm', 'o']),
           ⟨false, false, timeFrameMenuItems, some 1⟩)]) := by
  decide

/-- C10 (amended): for a non-degenerate menu (non-empty `items`, or
`allow_empty_selection`), `select_prev` and `select_next` both return `Ok`
with a defined `selected_index`; in the degenerate configuration (empty
`items`, `allow_empty_selection = false`, nothing selected) `select_prev`
computes `items.len() - 1`, underflows and panics, while `select_next`
returns `Ok` selecting index `0` — it does not panic. -/
theorem select_menu_nav_safety :
    (∀ (α : Type) (s : SelectMenuState α),
      s.items ≠ [] ∨ s.allowEmptySelection = true →
      (∃ s2, s.selectPrev = some s2 ∧ s2.listStateSelected.isSome = true) ∧
      (∃ s2, s.selectNext = some s2 ∧ s2.listStateSelected.isSome = true)) ∧
    SelectMenuState.selectPrev ⟨false, false, ([] : List (List Char)), none⟩ =
      none ∧
    SelectMenuState.selectNext ⟨false, false, ([] : List (List Char)), none⟩ =
      some ⟨false, false, [], some 0⟩ := by
  refine ⟨?_, by decide, by decide⟩
  intro α s h
  have hlen : s.allowEmptySelection = false → 1 ≤ s.items.length := by
    intro hae
    rcases h with h | h
    · cases hi : s.items with
      | nil => exact absurd hi h
      | cons a l => simp [hi]
    · rw [h] at hae
      exact absurd hae (by simp)
  constructor
  · unfold SelectMenuState.selectPrev
    cases hsel : s.listStateSelected with
    | some n => simp [SelectMenuState.selectIndex]
    | none =>
      cases hae : s.allowEmptySelection
      · simp [usizeSub, hlen hae, SelectMenuState.selectIndex]
      · simp [SelectMenuState.selectIndex]
  · unfold SelectMenuState.selectNext
    cases hsel : s.listStateSelected with
    | none => simp [SelectMenuState.selectIndex]
    | some n =>
      cases hae : s.allowEmptySelection
      · simp [usizeSub, hlen hae, SelectMenuState.selectIndex]
      · simp [SelectMenuState.selectIndex]

/-- C10 witness: a one-item menu navigates safely in both directions. -/
theorem select_menu_nav_safety_witness :
    (∃ s2, SelectMenuState.selectPrev ⟨false, false, [['a']], none⟩ = some s2 ∧
      s2.listStateSelected.isSome = true) ∧
    (∃ s2, SelectMenuState.selectNext ⟨false, false, [['a']], none⟩ = some s2 ∧
      s2.listStateSelected.isSome = true) :=
  select_menu_nav_safety.1 (List Char) ⟨false, false, [['a']], none⟩
    (Or.inl (by decide))

/-- C10 counterexample: in the degenerate configuration (empty items, empty
selection disallowed, nothing selected) `select_next` does *not* panic: it
returns `Ok` and selects index `0` — refuting the claim that both
`select_prev` and `select_next` compute `items.len() - 1` and panic there. -/
theorem select_menu_next_counterexample :
    SelectMenuState.selectNext ⟨false, false, ([] : List (List Char)), none⟩ =
      some ⟨false, false, [], some 0⟩ ∧
    (some (⟨false, false, [], some 0⟩ : SelectMenuState (List Char)) ≠ none) := by
  decide

/-- C9 (amended): the observable output of `to_date_ranges` is a function of
the external input sequence *together with* the wall-clock day read through
`TimeFrame::now_date_range` — two runs agree whenever both the inputs and
the clock reading agree. -/
theorem to_date_ranges_deterministic (nowDay1 nowDay2 : Int)
    (inputs1 inputs2 :
      List (InputEvent × String × TimeFrame × Option UiTarget))
    (hnow : nowDay1 = nowDay2) (hinputs : inputs1 = inputs2) :
    toDateRangesRun nowDay1 inputs1 = toDateRangesRun nowDay2 inputs2 := by
  rw [hnow, hinputs]

/-- C9 witness: two runs at the same clock day on the same inputs agree. -/
theorem to_date_ranges_deterministic_witness :
    toDateRangesRun 5 [(InputEvent.tick, "TSLA", TimeFrame.oneMonth, none)] =
      toDateRangesRun 5 [(InputEvent.tick, "TSLA", TimeFrame.oneMonth, none)] :=
  to_date_ranges_deterministic 5 5
    [(InputEvent.tick, "TSLA", TimeFrame.oneMonth, none)]
    [(InputEvent.tick, "TSLA", TimeFrame.oneMonth, none)] rfl rfl

/-- C9 counterexample: the same single-input sequence produces different
date-range outputs when the wall clock differs — `to_date_ranges` reads
`Utc::now()` via `TimeFrame::now_date_range`, so its output is not a
function of the input sequence alone. -/
theorem to_date_ranges_clock_counterexample :
    toDateRangesRun 0 [(InputEvent.tick, "TSLA", TimeFrame.oneMonth, none)] ≠
      toDateRangesRun 1 [(InputEvent.tick, "TSLA", TimeFrame.oneMonth, none)] := by
  decide
